import Mathlib

/-!
Verification of the LiquidLauncher artifact acquisition pipeline.

Shallow embedding of `src/minecraft/progress.rs` and
`src/minecraft/prelauncher.rs`.  Machine integers (`u64`) are modelled as
`Nat` with explicit reduction modulo `2 ^ 64` at every operation that can
overflow (Rust release-mode wrapping semantics); a `u64` division by zero,
which panics in Rust, is modelled by `Option`/`Outcome.panic`.  External
collaborators (the streaming downloader, the zip reader, the filesystem)
are modelled as explicit oracles / explicit state: directories are
association lists from file names to contents, and network traffic is
recorded in an event log so that "number of downloads performed" is
observable.
-/

/-- Truncation to 64 bits: the effect of Rust `u64` wrapping arithmetic. -/
def wrap64 (n : Nat) : Nat := n % 2 ^ 64

/-! ### progress.rs -/

/-- The four fixed progress phases (`enum ProgressUpdateSteps`). -/
inductive ProgressUpdateSteps where
  | DownloadLiquidBounceMods
  | DownloadClientJar
  | DownloadLibraries
  | DownloadAssets
deriving DecidableEq

/-- `ProgressUpdateSteps::len()`. -/
def ProgressUpdateSteps.len : Nat := 4

/-- `ProgressUpdateSteps::step_idx()`. -/
def ProgressUpdateSteps.step_idx : ProgressUpdateSteps → Nat
  | .DownloadLiquidBounceMods => 0
  | .DownloadClientJar => 1
  | .DownloadLibraries => 2
  | .DownloadAssets => 3

/-- `get_progress(idx, curr, max)` from progress.rs:
`idx as u64 * 100 + (curr * 100 / max.max(1))`, in wrapping `u64`
arithmetic.  The division cannot overflow, and `max.max(1)` is never zero,
so only the products and the final sum are truncated. -/
def get_progress (idx curr max : Nat) : Nat :=
  wrap64 (wrap64 (idx * 100) + wrap64 (curr * 100) / Nat.max max 1)

/-- `get_max(len)` from progress.rs: `len as u64 * 100`. -/
def get_max (len : Nat) : Nat := wrap64 (len * 100)

/-- `enum ProgressUpdate`. -/
inductive ProgressUpdate where
  | SetMax (v : Nat)
  | SetProgress (v : Nat)
  | SetLabel (s : String)
deriving DecidableEq

/-- `const PER_STEP: u64 = 1024`. -/
def PER_STEP : Nat := 1024

/-- `ProgressUpdate::set_for_step(step, progress, max)` from progress.rs:
`SetProgress(step.step_idx() as u64 * PER_STEP + (progress * PER_STEP / max))`.
The divisor `max` is used as given (no clamping); a Rust `u64` division by
zero panics, modelled here by `none`.  `step_idx ≤ 3` so
`step_idx * PER_STEP ≤ 3072` never wraps; the other product and the final
sum are truncated. -/
def ProgressUpdate.set_for_step (step : ProgressUpdateSteps) (progress max : Nat) :
    Option ProgressUpdate :=
  if max = 0 then none
  else some (ProgressUpdate.SetProgress
    (wrap64 (step.step_idx * PER_STEP + wrap64 (progress * PER_STEP) / max)))

/-- `ProgressUpdate::set_to_max()` from progress.rs:
`SetProgress(ProgressUpdateSteps::len() as u64 * PER_STEP)` (no overflow:
`4 * 1024`). -/
def ProgressUpdate.set_to_max : ProgressUpdate :=
  ProgressUpdate.SetProgress (ProgressUpdateSteps.len * PER_STEP)

/-- `ProgressUpdate::set_max()` from progress.rs:
`SetMax(ProgressUpdateSteps::len() as u64 * PER_STEP)`. -/
def ProgressUpdate.set_max : ProgressUpdate :=
  ProgressUpdate.SetMax (ProgressUpdateSteps.len * PER_STEP)

/-! ### Progress callback sequences (for claim C6) -/

/-- One per-mod progress callback: the mod index, the bytes downloaded so
far, and the reported total, as fed to `get_progress` from the closures in
`retrieve_and_copy_mods`. -/
structure Cb where
  idx : Nat
  curr : Nat
  total : Nat
deriving DecidableEq

/-- A well-formed callback for a manifest of `N` selected mods: the index
is in range, the bytes downloaded never exceed the reported total, and the
byte count stays inside `u64` scaling range. -/
def cbOk (N : Nat) (c : Cb) : Prop :=
  c.idx < N ∧ c.curr ≤ c.total ∧ c.total * 100 < 2 ^ 64

instance (N : Nat) (c : Cb) : Decidable (cbOk N c) := by
  unfold cbOk; exact inferInstance

/-- The pair (mod index, bytes downloaded) is non-decreasing between two
successive callbacks: either the pipeline moved on to a later mod, or it
reports more bytes of the same transfer. -/
def cbStep (a b : Cb) : Prop :=
  a.idx < b.idx ∨ (a.idx = b.idx ∧ a.curr ≤ b.curr ∧ a.total = b.total)

instance (a b : Cb) : Decidable (cbStep a b) := by
  unfold cbStep; exact inferInstance

/-- Chained `cbStep` along a whole callback sequence. -/
def chainCb : List Cb → Prop
  | [] => True
  | [_] => True
  | a :: b :: t => cbStep a b ∧ chainCb (b :: t)

instance instDecChainCb : (l : List Cb) → Decidable (chainCb l)
  | [] => inferInstanceAs (Decidable True)
  | [_] => inferInstanceAs (Decidable True)
  | a :: b :: t =>
    haveI := instDecChainCb (b :: t)
    inferInstanceAs (Decidable (cbStep a b ∧ chainCb (b :: t)))

/-- A non-decreasing sequence of naturals. -/
def monoSeq : List Nat → Prop
  | [] => True
  | [_] => True
  | a :: b :: t => a ≤ b ∧ monoSeq (b :: t)

/-! ### Association-list directories -/

/-- File contents as a byte list. -/
abbrev Bytes := List Nat

/-- Lookup in an association list keyed by strings (first match). -/
def alookup {α : Type} (l : List (String × α)) (k : String) : Option α :=
  (l.find? (fun e => e.1 == k)).map (fun e => e.2)

/-- Write a key: replace the first binding of `k`, or append a new one.
This is the effect of `fs::write` / `fs::copy` on a directory. -/
def setKey {α : Type} : List (String × α) → String → α → List (String × α)
  | [], k, v => [(k, v)]
  | e :: t, k, v => if e.1 == k then (k, v) :: t else e :: setKey t k v

/-- Remove every binding of a key (the effect of `fs::remove_file`). -/
def removeKey {α : Type} (l : List (String × α)) (k : String) : List (String × α) :=
  l.filter (fun e => e.1 != k)

/-! ### prelauncher.rs data model -/

/-- The error type surfaced by the pipeline.  `InvalidVersionProfile` is
`LauncherError::InvalidVersionProfile` from the source; the spec's §7
taxonomy calls it `InvalidDescriptor` and adds the collaborator error
classes, which the source propagates through `anyhow`. -/
inductive LauncherError where
  | InvalidVersionProfile (msg : String)
  | ArchiveError (msg : String)
  | TransportError (msg : String)
  | FilesystemError (msg : String)
deriving DecidableEq

/-- `enum ModSource` (crate::cloud): a direct download (named `SkipAd` in
the source) or a Maven-repository artifact. -/
inductive ModSource where
  | skipAd (artifact_name url : String) (extract : Bool)
  | repository (repository artifact : String)
deriving DecidableEq

/-- Modelled from the spec: `get_maven_artifact_path` (crate::utils, not
under src/): the artifact is "a Maven-style coordinate
(`group:name:version[:classifier]`) converted to a relative path". -/
def get_maven_artifact_path (artifact : String) : Except LauncherError String :=
  match artifact.splitOn ":" with
  | [group, name, version] =>
    .ok (group.replace "." "/" ++ "/" ++ name ++ "/" ++ version ++ "/" ++
      name ++ "-" ++ version ++ ".jar")
  | [group, name, version, classifier] =>
    .ok (group.replace "." "/" ++ "/" ++ name ++ "/" ++ version ++ "/" ++
      name ++ "-" ++ version ++ "-" ++ classifier ++ ".jar")
  | _ => .error (.InvalidVersionProfile ("Invalid artifact coordinate " ++ artifact))

/-- Modelled from the spec: `ModSource::get_path` (crate::cloud, not under
src/): the cache key is "a deterministic path derived from its `source`
(e.g., the Maven path, or a path derived from the direct-download artifact
name)". -/
def ModSource.get_path : ModSource → Except LauncherError String
  | .skipAd artifact_name _ _ => .ok artifact_name
  | .repository _ artifact => get_maven_artifact_path artifact

/-- `ModEntry` of the launch manifest. -/
structure ModEntry where
  name : String
  required : Bool
  default : Bool
  source : ModSource
deriving DecidableEq

/-- An entry is selected when `required || default`; the loop in
`retrieve_and_copy_mods` skips entries with `!required && !default`. -/
def selected (m : ModEntry) : Bool := m.required || m.default

/-- `LaunchManifest` restricted to the fields `retrieve_and_copy_mods`
reads: the ordered mod list and the repository name → base-URL mapping. -/
structure LaunchManifest where
  mods : List ModEntry
  repositories : List (String × String)
deriving DecidableEq

/-- An entry of the working `mods` directory: a regular file with its
bytes, or a subdirectory with its contents. -/
inductive DirEntry where
  | file (content : Bytes)
  | dir (contents : List (String × Bytes))
deriving DecidableEq

def isFileEntry : DirEntry → Bool
  | .file _ => true
  | .dir _ => false

/-- Observable pipeline events: label updates sent to the progress
receiver, and network downloads performed. -/
inductive Event where
  | label (s : String)
  | download (url : String)
deriving DecidableEq

/-- The state threaded through `retrieve_and_copy_mods`: the `mod_cache`
directory (relative path → bytes), the `gameDir/mods` working directory,
and the event log. -/
structure St where
  cache : List (String × Bytes)
  modsDir : List (String × DirEntry)
  log : List Event
deriving DecidableEq

/-- The result of a fallible, possibly panicking computation: Rust
`Result::Ok`, `Result::Err` propagated by `?`, or a panic (`unwrap`). -/
inductive Outcome (α : Type) where
  | ok (val : α)
  | err (e : LauncherError)
  | panic
deriving DecidableEq

/-- Number of network downloads recorded in a log. -/
def countDownloads (l : List Event) : Nat :=
  (l.filter (fun e => match e with | .download _ => true | _ => false)).length

/-! ### The clearing step (prelauncher.rs lines 70-77) -/

/-- One iteration of the clearing loop: if the listed entry is a regular
file, `fs::remove_file` it; subdirectories are left alone. -/
def clearStep (acc : List (String × DirEntry)) (e : String × DirEntry) :
    List (String × DirEntry) :=
  if isFileEntry e.2 then removeKey acc e.1 else acc

/-- The clearing loop: iterate over the `read_dir` listing of the working
mods directory (the directory itself) and remove every regular file. -/
def clearModsDir (d : List (String × DirEntry)) : List (String × DirEntry) :=
  d.foldl clearStep d

/-- The clearing step as a state transformer: only the working mods
directory is touched; the cache and the log are untouched. -/
def clearWorkingDir (st : St) : St := { st with modsDir := clearModsDir st.modsDir }

/-- There is an entry named `n` in the directory that is a regular file. -/
def hasFileKey (l : List (String × DirEntry)) (n : String) : Bool :=
  l.any (fun e => e.1 == n && isFileEntry e.2)

/-! ### Mod retrieval (prelauncher.rs lines 79-134) -/

/-- Append the "Downloading recommended mod" label update (line 87). -/
def logLabel (m : ModEntry) (st : St) : St :=
  { st with log := st.log ++ [Event.label ("Downloading recommended mod " ++ m.name)] }

/-- Record one network download. -/
def logDownload (url : String) (st : St) : St :=
  { st with log := st.log ++ [Event.download url] }

/-- `fs::write` of the final bytes to the cache path (lines 117, 127). -/
def writeCache (relPath : String) (bytes : Bytes) (st : St) : St :=
  { st with cache := setKey st.cache relPath bytes }

/-- The copy step (line 133): read the cache entry and copy its bytes into
the working directory under `<name>.jar`.  A missing source file would be
an I/O error of `fs::copy`. -/
def copyStep (m : ModEntry) (relPath : String) (st : St) : Outcome St :=
  match alookup st.cache relPath with
  | none => .err (.FilesystemError ("copy failed, missing cache entry " ++ relPath))
  | some bytes =>
    .ok { st with modsDir := setKey st.modsDir (m.name ++ ".jar") (DirEntry.file bytes) }

/-- Model of Rust `str::ends_with` on archive entry names, implemented as
a byte-list suffix check so that it evaluates by kernel reduction. -/
def strEndsWith (s suffix : String) : Bool :=
  suffix.data.isSuffixOf s.data

/-- Lines 100-115: interpret downloaded bytes.  With `extract` set, open
them as a zip archive (`ZipArchive::new(..).unwrap()` — a corrupt archive
PANICS), locate the first entry name ending in `.jar` (else
`InvalidVersionProfile`), and read that entry's full contents; otherwise
keep the raw bytes.  The zip reader is the oracle `zipOpen`, returning the
archive's entry list or `none` for corrupt bytes. -/
def extractFinalFile (zipOpen : Bytes → Option (List (String × Bytes)))
    (extract : Bool) (retrieved_bytes : Bytes) : Outcome Bytes :=
  if extract then
    match zipOpen retrieved_bytes with
    | none => .panic
    | some archive =>
      match (archive.map (fun e => e.1)).find? (fun x => strEndsWith x ".jar") with
      | none => .err (.InvalidVersionProfile "There is no JAR in the downloaded archive")
      | some file_name_to_extract =>
        match alookup archive file_name_to_extract with
        | none => .err (.ArchiveError ("no entry named " ++ file_name_to_extract))
        | some output => .ok output
  else .ok retrieved_bytes

/-- One iteration of the mod loop (lines 81-134): skip unselected entries;
emit the label; compute the cache path; on a cache miss download (and
possibly extract) and write the cache entry; finally copy the cache entry
into the working directory.  `net` is the streaming-download oracle
(`download_client` / `download_file`). -/
def processMod (net : String → Except LauncherError Bytes)
    (zipOpen : Bytes → Option (List (String × Bytes)))
    (repositories : List (String × String))
    (current_mod : ModEntry) (st : St) : Outcome St :=
  if !current_mod.required && !current_mod.default then
    .ok st
  else
    match current_mod.source.get_path with
    | .error e => .err e
    | .ok relPath =>
      match alookup st.cache relPath with
      | some _ => copyStep current_mod relPath (logLabel current_mod st)
      | none =>
        match current_mod.source with
        | ModSource.skipAd _ url extract =>
          match net url with
          | .error e => .err e
          | .ok retrieved_bytes =>
            match extractFinalFile zipOpen extract retrieved_bytes with
            | .panic => .panic
            | .err e => .err e
            | .ok final_file =>
              copyStep current_mod relPath
                (writeCache relPath final_file (logDownload url (logLabel current_mod st)))
        | ModSource.repository repository artifact =>
          match alookup repositories repository with
          | none =>
            .err (.InvalidVersionProfile
              ("There is no repository specified with the name " ++ repository))
          | some repository_url =>
            match get_maven_artifact_path artifact with
            | .error e => .err e
            | .ok mavenPath =>
              match net (repository_url ++ mavenPath) with
              | .error e => .err e
              | .ok retrieved_bytes =>
                copyStep current_mod relPath
                  (writeCache relPath retrieved_bytes
                    (logDownload (repository_url ++ mavenPath) (logLabel current_mod st)))

/-- The mod loop in manifest order, stopping at the first error (the `?`
operator aborts the whole retrieval). -/
def runMods (net : String → Except LauncherError Bytes)
    (zipOpen : Bytes → Option (List (String × Bytes)))
    (repositories : List (String × String)) :
    List ModEntry → St → Outcome St
  | [], st => .ok st
  | m :: rest, st =>
    match processMod net zipOpen repositories m st with
    | .ok st1 => runMods net zipOpen repositories rest st1
    | .err e => .err e
    | .panic => .panic

/-- `retrieve_and_copy_mods(manifest, progress)`: ensure the directories
exist (a no-op on the abstract state), clear the working mods directory of
regular files, then process every manifest entry in order. -/
def retrieve_and_copy_mods (net : String → Except LauncherError Bytes)
    (zipOpen : Bytes → Option (List (String × Bytes)))
    (manifest : LaunchManifest) (st : St) : Outcome St :=
  runMods net zipOpen manifest.repositories manifest.mods (clearWorkingDir st)

/-! ### Copies performed by one run -/

/-- The copy a mod entry contributes to the working directory, read off a
(final) cache `C`: selected entries with a resolvable path and a cache
entry contribute `(<name>.jar, bytes)`. -/
def copyOf (C : List (String × Bytes)) (m : ModEntry) : Option (String × Bytes) :=
  if !m.required && !m.default then none
  else
    match m.source.get_path with
    | .error _ => none
    | .ok p => (alookup C p).map (fun b => (m.name ++ ".jar", b))

/-- All copies a mod list contributes, in manifest order. -/
def copiesOf (C : List (String × Bytes)) (mods : List ModEntry) :
    List (String × Bytes) :=
  mods.filterMap (copyOf C)

/-- Replay a list of copies on a directory. -/
def applyCopies (cs : List (String × Bytes)) (d : List (String × DirEntry)) :
    List (String × DirEntry) :=
  cs.foldl (fun acc c => setKey acc c.1 (DirEntry.file c.2)) d

/-- The last copy targeting file name `n`, if any. -/
def lastFile : List (String × Bytes) → String → Option Bytes
  | [], _ => none
  | c :: cs, n =>
    match lastFile cs n with
    | some b => some b
    | none => if c.1 == n then some c.2 else none

/-! ### Version-profile inheritance (prelauncher.rs lines 42-55) -/

/-- One entry of the Minecraft version manifest catalog. -/
structure VersionEntry where
  id : String
  url : String
deriving DecidableEq

/-- The game-version catalog (`VersionManifest`). -/
structure VersionManifest where
  versions : List VersionEntry
deriving DecidableEq

/-- Modelled from the spec: `VersionProfile` (crate::minecraft::version,
not under src/): id, optional parent reference, and launch-relevant fields
(main class and library list stand in for the opaque field set). -/
structure VersionProfile where
  id : String
  inherits_from : Option String
  main_class : Option String
  libraries : List String
deriving DecidableEq

/-- Modelled from the spec: `VersionProfile::merge` (crate::minecraft::
version, not under src/): "child fields take precedence field-by-field;
fields absent on the child are filled from the parent; list-valued fields
are concatenated, child first". -/
def VersionProfile.merge (child parent : VersionProfile) : VersionProfile :=
  { id := child.id
    inherits_from := child.inherits_from
    main_class := match child.main_class with
      | some c => some c
      | none => parent.main_class
    libraries := child.libraries ++ parent.libraries }

/-- Lines 42-55 of `launch`: if the loaded profile declares
`inherits_from`, find the parent id in the catalog (failing with
`InvalidVersionProfile("unable to find inherited version manifest <id>")`),
download the parent profile from the catalog entry's URL (`fetchProfile`
is the `VersionProfile::load` oracle), and merge it into the child. -/
def resolveInheritance (fetchProfile : String → Except LauncherError VersionProfile)
    (mc_version_manifest : VersionManifest) (version : VersionProfile) :
    Except LauncherError VersionProfile :=
  match version.inherits_from with
  | none => .ok version
  | some inherited_version =>
    match mc_version_manifest.versions.find? (fun x => x.id == inherited_version) with
    | none =>
      .error (.InvalidVersionProfile
        ("unable to find inherited version manifest " ++ inherited_version))
    | some entry =>
      match fetchProfile entry.url with
      | .error e => .error e
      | .ok parent_version => .ok (version.merge parent_version)

/-! ## Theorems -/

/-! ### Arithmetic helpers for the progress claims -/

lemma wrap64_eq_of_lt {n : Nat} (h : n < 2 ^ 64) : wrap64 n = n :=
  Nat.mod_eq_of_lt h

/-- Unfolding of `get_progress` when no intermediate `u64` operation
overflows. -/
lemma get_progress_eq (idx curr max : Nat) (hc : curr * 100 < 2 ^ 64)
    (hs : idx * 100 + curr * 100 / Nat.max max 1 < 2 ^ 64) :
    get_progress idx curr max = idx * 100 + curr * 100 / Nat.max max 1 := by
  have h1 : idx * 100 < 2 ^ 64 := lt_of_le_of_lt (Nat.le_add_right _ _) hs
  unfold get_progress
  rw [wrap64_eq_of_lt h1, wrap64_eq_of_lt hc, wrap64_eq_of_lt hs]

lemma get_max_eq (len : Nat) (h : len * 100 < 2 ^ 64) : get_max len = len * 100 :=
  wrap64_eq_of_lt h

/-- Claim C5: for all `item_index`, `item_done`, `item_total`,
`get_progress(item_index, item_done, item_total)
 = item_index * 100 + floor(item_done * 100 / max(item_total, 1))`, and
for all `item_count`, `get_max(item_count) = item_count * 100` (stated
under the side conditions that the `u64` arithmetic does not wrap). -/
theorem c5_get_progress_formula :
    (∀ idx curr max : Nat, curr * 100 < 2 ^ 64 →
      idx * 100 + curr * 100 / Nat.max max 1 < 2 ^ 64 →
      get_progress idx curr max = idx * 100 + curr * 100 / Nat.max max 1) ∧
    (∀ len : Nat, len * 100 < 2 ^ 64 → get_max len = len * 100) :=
  ⟨get_progress_eq, get_max_eq⟩

/-- Witness for C5 at concrete inputs. -/
theorem c5_get_progress_formula_witness :
    get_progress 2 50 200 = 2 * 100 + 50 * 100 / Nat.max 200 1 ∧
    get_max 7 = 7 * 100 :=
  ⟨c5_get_progress_formula.1 2 50 200 (by decide) (by decide),
   c5_get_progress_formula.2 7 (by decide)⟩

/-- Counterexample to claim C3: `set_for_step` does not clamp `step_max`;
with `step_max = 0` the `u64` division panics (modelled by `none`), so the
computation is not well-defined there. -/
theorem c3_counterexample :
    ProgressUpdate.set_for_step ProgressUpdateSteps.DownloadClientJar 5 0 = none := rfl

/-- Claim C3 (amended): `set_for_step` divides by `step_max` without
clamping; for every `step_max ≥ 1` (and inputs whose `u64` arithmetic does
not wrap) it returns
`SetProgress(step_index * PER_STEP + floor(step_progress * PER_STEP / step_max))`,
while for `step_max = 0` the division panics (the clamping to at least 1
exists in `get_progress`, not in `set_for_step`). -/
theorem c3_set_for_step_division (step : ProgressUpdateSteps) (progress max : Nat)
    (hmax : 0 < max) (hp : progress * PER_STEP < 2 ^ 64)
    (hs : step.step_idx * PER_STEP + progress * PER_STEP / max < 2 ^ 64) :
    ProgressUpdate.set_for_step step progress max =
      some (ProgressUpdate.SetProgress
        (step.step_idx * PER_STEP + progress * PER_STEP / max)) := by
  unfold ProgressUpdate.set_for_step
  rw [if_neg (Nat.pos_iff_ne_zero.mp hmax), wrap64_eq_of_lt hp, wrap64_eq_of_lt hs]

/-- Witness for C3 (amended) at concrete inputs. -/
theorem c3_set_for_step_division_witness :
    ProgressUpdate.set_for_step ProgressUpdateSteps.DownloadAssets 10 4 =
      some (ProgressUpdate.SetProgress
        (ProgressUpdateSteps.step_idx ProgressUpdateSteps.DownloadAssets * PER_STEP +
          10 * PER_STEP / 4)) :=
  c3_set_for_step_division ProgressUpdateSteps.DownloadAssets 10 4
    (by decide) (by decide) (by decide)

/-- Claim C10: `set_to_max()` produces exactly the progress value that
`set_max()` declares as the overall maximum, namely
`ProgressUpdateSteps::len() * PER_STEP = 4 * 1024`. -/
theorem c10_set_to_max_eq_set_max :
    ProgressUpdate.set_to_max =
      ProgressUpdate.SetProgress (ProgressUpdateSteps.len * PER_STEP) ∧
    ProgressUpdate.set_max =
      ProgressUpdate.SetMax (ProgressUpdateSteps.len * PER_STEP) ∧
    ProgressUpdateSteps.len * PER_STEP = 4 * 1024 :=
  ⟨rfl, rfl, rfl⟩

/-! ### Claim C6 -/

lemma div_scale_le_100 {curr total : Nat} (h : curr ≤ total) :
    curr * 100 / Nat.max total 1 ≤ 100 := by
  have h1 : curr * 100 ≤ Nat.max total 1 * 100 :=
    Nat.mul_le_mul_right _ (le_trans h (Nat.le_max_left _ _))
  have h2 : curr * 100 / Nat.max total 1 ≤ Nat.max total 1 * 100 / Nat.max total 1 :=
    Nat.div_le_div_right h1
  have h3 : 0 < Nat.max total 1 := lt_of_lt_of_le Nat.one_pos (Nat.le_max_right _ _)
  calc curr * 100 / Nat.max total 1 ≤ Nat.max total 1 * 100 / Nat.max total 1 := h2
    _ = 100 := Nat.mul_div_cancel_left 100 h3

/-- A well-formed callback's `get_progress` value equals the pure formula
and is bounded by `N * 100`. -/
lemma get_progress_cb_eq {N : Nat} {c : Cb} (hN : N * 100 < 2 ^ 64) (hc : cbOk N c) :
    get_progress c.idx c.curr c.total =
      c.idx * 100 + c.curr * 100 / Nat.max c.total 1 ∧
    get_progress c.idx c.curr c.total ≤ N * 100 := by
  obtain ⟨hidx, hcurr, htot⟩ := hc
  have hc100 : c.curr * 100 < 2 ^ 64 :=
    lt_of_le_of_lt (Nat.mul_le_mul_right _ hcurr) htot
  have hbound : c.idx * 100 + c.curr * 100 / Nat.max c.total 1 ≤ N * 100 := by
    have h1 : c.curr * 100 / Nat.max c.total 1 ≤ 100 := div_scale_le_100 hcurr
    have h2 : c.idx * 100 + 100 = (c.idx + 1) * 100 := by ring
    calc c.idx * 100 + c.curr * 100 / Nat.max c.total 1
        ≤ c.idx * 100 + 100 := Nat.add_le_add_left h1 _
      _ = (c.idx + 1) * 100 := h2
      _ ≤ N * 100 := Nat.mul_le_mul_right _ hidx
  have hs : c.idx * 100 + c.curr * 100 / Nat.max c.total 1 < 2 ^ 64 :=
    lt_of_le_of_lt hbound hN
  refine ⟨get_progress_eq _ _ _ hc100 hs, ?_⟩
  rw [get_progress_eq _ _ _ hc100 hs]
  exact hbound

/-- Monotonicity of `get_progress` across one `cbStep`. -/
lemma get_progress_mono {N : Nat} {a b : Cb} (hN : N * 100 < 2 ^ 64)
    (ha : cbOk N a) (hb : cbOk N b) (hstep : cbStep a b) :
    get_progress a.idx a.curr a.total ≤ get_progress b.idx b.curr b.total := by
  rw [(get_progress_cb_eq hN ha).1, (get_progress_cb_eq hN hb).1]
  rcases hstep with hlt | ⟨hidx, hcurr, htot⟩
  · have h1 : a.curr * 100 / Nat.max a.total 1 ≤ 100 := div_scale_le_100 ha.2.1
    have h2 : a.idx * 100 + 100 = (a.idx + 1) * 100 := by ring
    calc a.idx * 100 + a.curr * 100 / Nat.max a.total 1
        ≤ a.idx * 100 + 100 := Nat.add_le_add_left h1 _
      _ = (a.idx + 1) * 100 := h2
      _ ≤ b.idx * 100 := Nat.mul_le_mul_right _ hlt
      _ ≤ b.idx * 100 + b.curr * 100 / Nat.max b.total 1 := Nat.le_add_right _ _
  · rw [hidx, htot]
    exact Nat.add_le_add_left
      (Nat.div_le_div_right (Nat.mul_le_mul_right _ hcurr)) _

lemma monoSeq_map_get_progress {N : Nat} (hN : N * 100 < 2 ^ 64) :
    ∀ l : List Cb, (∀ c ∈ l, cbOk N c) → chainCb l →
      monoSeq (l.map (fun c => get_progress c.idx c.curr c.total))
  | [], _, _ => trivial
  | [_], _, _ => trivial
  | a :: b :: t, hok, hchain => by
    refine ⟨get_progress_mono hN (hok a (by simp)) (hok b (by simp)) hchain.1, ?_⟩
    exact monoSeq_map_get_progress hN (b :: t)
      (fun c hc => hok c (List.mem_cons_of_mem _ hc)) hchain.2

/-- Claim C6: for a manifest with `N` selected mods and any callback
sequence in which the pair (mod index, bytes downloaded) is non-decreasing
and the bytes downloaded never exceed the reported total, the successive
`get_progress` values are non-decreasing and bounded by `get_max N`; and
after the mod at index 1 completes fully (with a positive total), the
progress is at least `2 * 100`. -/
theorem c6_progress_monotone_bounded (N : Nat) (l : List Cb)
    (hN : N * 100 < 2 ^ 64) (hok : ∀ c ∈ l, cbOk N c) (hchain : chainCb l) :
    monoSeq (l.map (fun c => get_progress c.idx c.curr c.total)) ∧
    (∀ c ∈ l, get_progress c.idx c.curr c.total ≤ get_max N) ∧
    (∀ t : Nat, 0 < t → t * 100 < 2 ^ 64 → 2 * 100 ≤ get_progress 1 t t) := by
  refine ⟨monoSeq_map_get_progress hN l hok hchain, ?_, ?_⟩
  · intro c hc
    rw [get_max_eq _ hN]
    exact (get_progress_cb_eq hN (hok c hc)).2
  · intro t ht ht100
    have hmax : Nat.max t 1 = t := Nat.max_eq_left ht
    have hdiv : t * 100 / Nat.max t 1 = 100 := by
      rw [hmax]; exact Nat.mul_div_cancel_left 100 ht
    have hs : 1 * 100 + t * 100 / Nat.max t 1 < 2 ^ 64 := by
      rw [hdiv]; decide
    rw [get_progress_eq 1 t t ht100 hs, hdiv]

/-- Witness for C6 at a concrete three-mod callback sequence. -/
theorem c6_progress_monotone_bounded_witness :
    monoSeq (([⟨0, 0, 10⟩, ⟨0, 10, 10⟩, ⟨1, 0, 4⟩, ⟨1, 4, 4⟩, ⟨2, 0, 7⟩] : List Cb).map
      (fun c => get_progress c.idx c.curr c.total)) ∧
    (∀ c ∈ ([⟨0, 0, 10⟩, ⟨0, 10, 10⟩, ⟨1, 0, 4⟩, ⟨1, 4, 4⟩, ⟨2, 0, 7⟩] : List Cb),
      get_progress c.idx c.curr c.total ≤ get_max 3) ∧
    (∀ t : Nat, 0 < t → t * 100 < 2 ^ 64 → 2 * 100 ≤ get_progress 1 t t) :=
  c6_progress_monotone_bounded 3 [⟨0, 0, 10⟩, ⟨0, 10, 10⟩, ⟨1, 0, 4⟩, ⟨1, 4, 4⟩, ⟨2, 0, 7⟩]
    (by decide) (by decide) (by decide)

/-! ### Association-list lemmas -/

lemma alookup_nil {α : Type} (k : String) : alookup ([] : List (String × α)) k = none := rfl

lemma alookup_cons {α : Type} (e : String × α) (t : List (String × α)) (k : String) :
    alookup (e :: t) k = if e.1 == k then some e.2 else alookup t k := by
  unfold alookup
  cases h : e.1 == k <;> simp [List.find?_cons, h]

lemma alookup_cons_pos {α : Type} {e : String × α} {t : List (String × α)} {k : String}
    (h : (e.1 == k) = true) : alookup (e :: t) k = some e.2 := by
  rw [alookup_cons, if_pos h]

lemma alookup_cons_neg {α : Type} {e : String × α} {t : List (String × α)} {k : String}
    (h : (e.1 == k) = false) : alookup (e :: t) k = alookup t k := by
  rw [alookup_cons, if_neg]
  intro hc
  rw [h] at hc
  exact Bool.false_ne_true hc

lemma setKey_cons_pos {α : Type} {e : String × α} {t : List (String × α)} {k : String}
    {v : α} (h : (e.1 == k) = true) : setKey (e :: t) k v = (k, v) :: t := by
  simp [setKey, h]

lemma setKey_cons_neg {α : Type} {e : String × α} {t : List (String × α)} {k : String}
    {v : α} (h : (e.1 == k) = false) : setKey (e :: t) k v = e :: setKey t k v := by
  simp [setKey, h]

lemma alookup_setKey_self {α : Type} (l : List (String × α)) (k : String) (v : α) :
    alookup (setKey l k v) k = some v := by
  induction l with
  | nil => simp [setKey, alookup_cons]
  | cons e t ih =>
    cases h : e.1 == k with
    | true => rw [setKey_cons_pos h, alookup_cons_pos (by simp)]
    | false =>
      rw [setKey_cons_neg h, alookup_cons_neg h]
      exact ih

lemma alookup_setKey_ne {α : Type} (l : List (String × α)) {k k' : String} (v : α)
    (h : k' ≠ k) : alookup (setKey l k v) k' = alookup l k' := by
  have hk : (k == k') = false := by
    cases hb : k == k'
    · rfl
    · exact absurd (eq_of_beq hb) (Ne.symm h)
  induction l with
  | nil =>
    show alookup [(k, v)] k' = alookup [] k'
    rw [alookup_cons_neg hk]
  | cons e t ih =>
    cases he : e.1 == k with
    | true =>
      have he1 : e.1 = k := by simpa using he
      have he' : (e.1 == k') = false := by rw [he1]; exact hk
      rw [setKey_cons_pos he, alookup_cons_neg hk, alookup_cons_neg he']
    | false =>
      rw [setKey_cons_neg he, alookup_cons, alookup_cons, ih]

lemma alookup_mem {α : Type} {l : List (String × α)} {k : String} {v : α}
    (h : alookup l k = some v) : (k, v) ∈ l := by
  unfold alookup at h
  cases hf : l.find? (fun e => e.1 == k) with
  | none => rw [hf] at h; simp at h
  | some e =>
    rw [hf] at h
    have h2 : e.2 = v := by simpa using h
    have hm := List.mem_of_find?_eq_some hf
    have hp := List.find?_some hf
    have ha : e.1 = k := by simpa using hp
    have : e = (k, v) := by
      cases e
      simp only at h2 ha
      rw [h2, ha]
    rw [← this]
    exact hm

lemma removeKey_cons_eq {α : Type} {e : String × α} {t : List (String × α)} {k : String}
    (h : (e.1 == k) = true) : removeKey (e :: t) k = removeKey t k := by
  simp [removeKey, List.filter_cons, bne, h]

lemma removeKey_cons_ne {α : Type} {e : String × α} {t : List (String × α)} {k : String}
    (h : (e.1 == k) = false) : removeKey (e :: t) k = e :: removeKey t k := by
  simp [removeKey, List.filter_cons, bne, h]

lemma alookup_removeKey_self {α : Type} (l : List (String × α)) (k : String) :
    alookup (removeKey l k) k = none := by
  induction l with
  | nil => rfl
  | cons e t ih =>
    cases h : e.1 == k with
    | true => rw [removeKey_cons_eq h]; exact ih
    | false => rw [removeKey_cons_ne h, alookup_cons_neg h]; exact ih

lemma alookup_removeKey_ne {α : Type} (l : List (String × α)) {k k' : String}
    (h : k' ≠ k) : alookup (removeKey l k) k' = alookup l k' := by
  induction l with
  | nil => rfl
  | cons e t ih =>
    cases hb : e.1 == k with
    | true =>
      have he1 : e.1 = k := by simpa using hb
      have he' : (e.1 == k') = false := by
        cases hc : e.1 == k'
        · rfl
        · exact absurd (eq_of_beq hc) (by rw [he1]; exact Ne.symm h)
      rw [removeKey_cons_eq hb, ih, alookup_cons_neg he']
    | false =>
      rw [removeKey_cons_ne hb, alookup_cons, alookup_cons, ih]

lemma mem_removeKey {α : Type} {l : List (String × α)} {k : String} {e : String × α}
    (h : e ∈ removeKey l k) : e ∈ l ∧ e.1 ≠ k := by
  unfold removeKey at h
  have := List.mem_filter.mp h
  exact ⟨this.1, by simpa [bne_iff_ne] using this.2⟩

/-! ### Clearing-loop lemmas -/

lemma clearFold_sublist :
    ∀ (l acc : List (String × DirEntry)), (List.foldl clearStep acc l).Sublist acc
  | [], acc => List.Sublist.refl acc
  | e :: t, acc => by
    rw [List.foldl_cons]
    have h1 := clearFold_sublist t (clearStep acc e)
    have h2 : (clearStep acc e).Sublist acc := by
      unfold clearStep
      by_cases h : isFileEntry e.2 = true
      · rw [if_pos h]; exact List.filter_sublist _
      · rw [if_neg h]
    exact h1.trans h2

lemma hasFileKey_cons (e : String × DirEntry) (t : List (String × DirEntry)) (n : String) :
    hasFileKey (e :: t) n = ((e.1 == n && isFileEntry e.2) || hasFileKey t n) := by
  simp [hasFileKey, List.any_cons]

lemma clearFold_alookup :
    ∀ (l acc : List (String × DirEntry)) (n : String),
      alookup (List.foldl clearStep acc l) n =
        if hasFileKey l n then none else alookup acc n
  | [], acc, n => by simp [hasFileKey]
  | e :: t, acc, n => by
    rw [List.foldl_cons, clearFold_alookup t (clearStep acc e) n, hasFileKey_cons]
    cases ht : hasFileKey t n with
    | true => simp
    | false =>
      simp only [Bool.or_false, Bool.false_eq_true, if_false]
      unfold clearStep
      cases hf : isFileEntry e.2 with
      | false => simp
      | true =>
        cases hk : e.1 == n with
        | true =>
          have he1 : e.1 = n := eq_of_beq hk
          simp [he1, alookup_removeKey_self]
        | false =>
          have hne : n ≠ e.1 := by
            intro he
            rw [he] at hk
            simp at hk
          simp [alookup_removeKey_ne _ hne]

lemma clearModsDir_alookup (d : List (String × DirEntry)) (n : String) :
    alookup (clearModsDir d) n = if hasFileKey d n then none else alookup d n :=
  clearFold_alookup d d n

lemma clearFold_key_gone :
    ∀ (l acc : List (String × DirEntry)) {n : String} {b : Bytes},
      (n, DirEntry.file b) ∈ l → ∀ e ∈ List.foldl clearStep acc l, e.1 ≠ n
  | [], _, n, b, h => absurd h (List.not_mem_nil _)
  | x :: t, acc, n, b, h => by
    intro e he
    rw [List.foldl_cons] at he
    rcases List.mem_cons.mp h with hx | ht
    · have hstep : clearStep acc x = removeKey acc n := by
        rw [← hx]
        unfold clearStep
        simp [isFileEntry]
      rw [hstep] at he
      have he' := (clearFold_sublist t (removeKey acc n)).subset he
      exact (mem_removeKey he').2
    · exact clearFold_key_gone t (clearStep acc x) ht e he

lemma clearModsDir_no_file (d : List (String × DirEntry)) :
    ∀ e ∈ clearModsDir d, isFileEntry e.2 = false := by
  intro e he
  cases e with
  | mk n de =>
    cases de with
    | dir c => rfl
    | file b =>
      have hmem : (n, DirEntry.file b) ∈ d := (clearFold_sublist d d).subset he
      have := clearFold_key_gone d d hmem (n, DirEntry.file b) he
      simp at this

lemma hasFileKey_eq_false_of_no_file {l : List (String × DirEntry)}
    (h : ∀ e ∈ l, isFileEntry e.2 = false) (n : String) : hasFileKey l n = false := by
  unfold hasFileKey
  rw [List.any_eq_false]
  intro e he
  simp [h e he]

lemma hasFileKey_setKey_ne {l : List (String × DirEntry)} {k n : String} (v : DirEntry)
    (h : k ≠ n) : hasFileKey (setKey l k v) n = hasFileKey l n := by
  have hk : (k == n) = false := by
    cases hb : k == n
    · rfl
    · exact absurd (eq_of_beq hb) h
  induction l with
  | nil => simp [setKey, hasFileKey, List.any_cons, hk]
  | cons e t ih =>
    cases he : e.1 == k with
    | true =>
      have he1 : e.1 = k := eq_of_beq he
      rw [setKey_cons_pos he, hasFileKey_cons, hasFileKey_cons, he1, hk]
      simp
    | false =>
      rw [setKey_cons_neg he, hasFileKey_cons, hasFileKey_cons, ih]

lemma hasFileKey_eq_false_of_not_key {l : List (String × DirEntry)} {n : String}
    (h : n ∉ l.map Prod.fst) : hasFileKey l n = false := by
  unfold hasFileKey
  rw [List.any_eq_false]
  intro e he
  have : e.1 ≠ n := fun heq => h (heq ▸ List.mem_map_of_mem Prod.fst he)
  simp [this]

lemma alookup_hasFileKey_of_nodup {l : List (String × DirEntry)}
    (hn : (l.map Prod.fst).Nodup) {n : String} {v : DirEntry}
    (h : alookup l n = some v) : hasFileKey l n = isFileEntry v := by
  induction l with
  | nil => simp [alookup_nil] at h
  | cons e t ih =>
    rw [List.map_cons, List.nodup_cons] at hn
    cases hk : e.1 == n with
    | true =>
      rw [alookup_cons_pos hk] at h
      injection h with h2
      have he1 : e.1 = n := eq_of_beq hk
      have hnone : hasFileKey t n = false :=
        hasFileKey_eq_false_of_not_key (he1 ▸ hn.1)
      rw [hasFileKey_cons, hk, hnone, ← h2]
      simp
    | false =>
      rw [alookup_cons_neg hk] at h
      rw [hasFileKey_cons, hk, ih hn.2 h]
      simp

/-- Claim C9: the clearing step of `retrieve_and_copy_mods` leaves the
cache untouched, removes every regular file directly contained in the
working mods directory, and leaves every subdirectory (with all its
contents) unchanged. -/
theorem c9_clear_frame (st : St) (hnodup : (st.modsDir.map Prod.fst).Nodup) :
    (clearWorkingDir st).cache = st.cache ∧
    (∀ (n : String) (b : Bytes),
      alookup (clearWorkingDir st).modsDir n ≠ some (DirEntry.file b)) ∧
    (∀ (n : String) (c : List (String × Bytes)),
      alookup st.modsDir n = some (DirEntry.dir c) →
      alookup (clearWorkingDir st).modsDir n = some (DirEntry.dir c)) := by
  refine ⟨rfl, ?_, ?_⟩
  · intro n b h
    have hmem := alookup_mem h
    have := clearModsDir_no_file st.modsDir _ hmem
    simp [isFileEntry] at this
  · intro n c h
    have hf : hasFileKey st.modsDir n = false := by
      rw [alookup_hasFileKey_of_nodup hnodup h]
      rfl
    show alookup (clearModsDir st.modsDir) n = some (DirEntry.dir c)
    rw [clearModsDir_alookup, hf]
    simpa using h

/-- Witness for C9 at a concrete directory holding one file and one
subdirectory. -/
theorem c9_clear_frame_witness :
    (clearWorkingDir ⟨[("c", [1])], [("a.jar", DirEntry.file [2]), ("sub", DirEntry.dir [("x", [3])])], []⟩).cache = [("c", [1])] ∧
    (∀ (n : String) (b : Bytes),
      alookup (clearWorkingDir ⟨[("c", [1])], [("a.jar", DirEntry.file [2]), ("sub", DirEntry.dir [("x", [3])])], []⟩).modsDir n ≠ some (DirEntry.file b)) ∧
    (∀ (n : String) (c : List (String × Bytes)),
      alookup [("a.jar", DirEntry.file [2]), ("sub", DirEntry.dir [("x", [3])])] n = some (DirEntry.dir c) →
      alookup (clearWorkingDir ⟨[("c", [1])], [("a.jar", DirEntry.file [2]), ("sub", DirEntry.dir [("x", [3])])], []⟩).modsDir n = some (DirEntry.dir c)) :=
  c9_clear_frame ⟨[("c", [1])], [("a.jar", DirEntry.file [2]), ("sub", DirEntry.dir [("x", [3])])], []⟩ (by decide)

/-! ### Per-entry processing lemmas -/

lemma not_skip_of_selected {m : ModEntry} (h : selected m = true) :
    (!m.required && !m.default) = false := by
  unfold selected at h
  rw [← Bool.not_or, h]
  rfl

lemma skip_of_not_selected {m : ModEntry} (h : selected m = false) :
    (!m.required && !m.default) = true := by
  unfold selected at h
  rw [← Bool.not_or, h]
  rfl

lemma processMod_skip (net : String → Except LauncherError Bytes)
    (zipOpen : Bytes → Option (List (String × Bytes)))
    (repos : List (String × String)) {m : ModEntry} {st : St}
    (hsel : selected m = false) :
    processMod net zipOpen repos m st = .ok st := by
  unfold processMod
  rw [if_pos (skip_of_not_selected hsel)]

lemma processMod_hit (net : String → Except LauncherError Bytes)
    (zipOpen : Bytes → Option (List (String × Bytes)))
    (repos : List (String × String)) {m : ModEntry} {st : St} {p : String} {b : Bytes}
    (hsel : selected m = true) (hp : m.source.get_path = .ok p)
    (hb : alookup st.cache p = some b) :
    processMod net zipOpen repos m st =
      .ok { st with
            log := st.log ++ [Event.label ("Downloading recommended mod " ++ m.name)],
            modsDir := setKey st.modsDir (m.name ++ ".jar") (DirEntry.file b) } := by
  unfold processMod
  rw [if_neg (by simp [not_skip_of_selected hsel])]
  simp only [hp, hb, copyStep, logLabel]

lemma countDownloads_append (l1 l2 : List Event) :
    countDownloads (l1 ++ l2) = countDownloads l1 + countDownloads l2 := by
  unfold countDownloads
  rw [List.filter_append, List.length_append]

lemma countDownloads_append_label (l : List Event) (s : String) :
    countDownloads (l ++ [Event.label s]) = countDownloads l := by
  rw [countDownloads_append]
  rfl

/-- Case analysis of a successful `processMod`: either the entry was
skipped and the state is untouched, or the entry was selected, its cache
path resolved, the final cache holds its bytes, the cache only gained
entries, the copy landed in the working directory, and the log gained the
label (plus possibly a download event). -/
lemma processMod_ok {net : String → Except LauncherError Bytes}
    {zipOpen : Bytes → Option (List (String × Bytes))}
    {repos : List (String × String)} {m : ModEntry} {st st' : St}
    (h : processMod net zipOpen repos m st = .ok st') :
    (selected m = false ∧ st' = st) ∨
    (selected m = true ∧ ∃ p b tail,
      m.source.get_path = .ok p ∧
      alookup st'.cache p = some b ∧
      (∀ k b', alookup st.cache k = some b' → alookup st'.cache k = some b') ∧
      st'.modsDir = setKey st.modsDir (m.name ++ ".jar") (DirEntry.file b) ∧
      st'.log = st.log ++ Event.label ("Downloading recommended mod " ++ m.name) :: tail) := by
  cases hsel : selected m with
  | false =>
    left
    refine ⟨rfl, ?_⟩
    rw [processMod_skip net zipOpen repos hsel] at h
    injection h with h
    exact h.symm
  | true =>
    right
    refine ⟨rfl, ?_⟩
    unfold processMod at h
    rw [if_neg (by simp [not_skip_of_selected hsel])] at h
    cases hp : m.source.get_path with
    | error e =>
      simp only [hp] at h
      exact Outcome.noConfusion h
    | ok relPath =>
      simp only [hp] at h
      cases hc : alookup st.cache relPath with
      | some b0 =>
        simp only [hc, copyStep, logLabel] at h
        injection h with h
        subst h
        exact ⟨relPath, b0, [], rfl, hc, fun k b' hk => hk, rfl, rfl⟩
      | none =>
        simp only [hc] at h
        cases hsrc : m.source with
        | skipAd a url extract =>
          simp only [hsrc] at h
          cases hn : net url with
          | error e => simp only [hn] at h; exact Outcome.noConfusion h
          | ok rbytes =>
            simp only [hn] at h
            cases hx : extractFinalFile zipOpen extract rbytes with
            | panic => simp only [hx] at h; exact Outcome.noConfusion h
            | err e => simp only [hx] at h; exact Outcome.noConfusion h
            | ok final =>
              simp only [hx, copyStep, writeCache, logDownload, logLabel,
                alookup_setKey_self] at h
              injection h with h
              subst h
              refine ⟨relPath, final, [Event.download url], rfl,
                alookup_setKey_self _ _ _, ?_, rfl, ?_⟩
              · intro k b' hk
                have hne : k ≠ relPath := by
                  intro he
                  rw [he, hc] at hk
                  exact absurd hk (by simp)
                show alookup (setKey st.cache relPath final) k = some b'
                rw [alookup_setKey_ne _ _ hne]
                exact hk
              · show (st.log ++ [Event.label ("Downloading recommended mod " ++ m.name)]) ++
                    [Event.download url] =
                  st.log ++ Event.label ("Downloading recommended mod " ++ m.name) ::
                    [Event.download url]
                rw [List.append_assoc]
                rfl
        | repository repo artifact =>
          simp only [hsrc] at h
          cases hr : alookup repos repo with
          | none => simp only [hr] at h; exact Outcome.noConfusion h
          | some repoUrl =>
            simp only [hr] at h
            cases hmv : get_maven_artifact_path artifact with
            | error e => simp only [hmv] at h; exact Outcome.noConfusion h
            | ok mpath =>
              simp only [hmv] at h
              cases hn : net (repoUrl ++ mpath) with
              | error e => simp only [hn] at h; exact Outcome.noConfusion h
              | ok rbytes =>
                simp only [hn, copyStep, writeCache, logDownload, logLabel,
                  alookup_setKey_self] at h
                injection h with h
                subst h
                refine ⟨relPath, rbytes, [Event.download (repoUrl ++ mpath)], rfl,
                  alookup_setKey_self _ _ _, ?_, rfl, ?_⟩
                · intro k b' hk
                  have hne : k ≠ relPath := by
                    intro he
                    rw [he, hc] at hk
                    exact absurd hk (by simp)
                  show alookup (setKey st.cache relPath rbytes) k = some b'
                  rw [alookup_setKey_ne _ _ hne]
                  exact hk
                · show (st.log ++ [Event.label ("Downloading recommended mod " ++ m.name)]) ++
                      [Event.download (repoUrl ++ mpath)] =
                    st.log ++ Event.label ("Downloading recommended mod " ++ m.name) ::
                      [Event.download (repoUrl ++ mpath)]
                  rw [List.append_assoc]
                  rfl

/-! ### Copies-replay lemmas -/

lemma applyCopies_cons (c : String × Bytes) (cs : List (String × Bytes))
    (d : List (String × DirEntry)) :
    applyCopies (c :: cs) d = applyCopies cs (setKey d c.1 (DirEntry.file c.2)) := rfl

lemma alookup_applyCopies :
    ∀ (cs : List (String × Bytes)) (d : List (String × DirEntry)) (n : String),
      alookup (applyCopies cs d) n =
        match lastFile cs n with
        | some b => some (DirEntry.file b)
        | none => alookup d n
  | [], _, _ => rfl
  | c :: cs, d, n => by
    rw [applyCopies_cons, alookup_applyCopies cs _ n]
    cases hl : lastFile cs n with
    | some b => simp [lastFile, hl]
    | none =>
      simp only [lastFile, hl]
      cases hk : c.1 == n with
      | true =>
        have he1 : c.1 = n := eq_of_beq hk
        rw [← he1, alookup_setKey_self]
        simp
      | false =>
        have hne : n ≠ c.1 := by
          intro he
          rw [he] at hk
          simp at hk
        rw [alookup_setKey_ne _ _ hne]
        simp [hk]

lemma lastFile_none_key :
    ∀ {cs : List (String × Bytes)} {n : String}, lastFile cs n = none →
      ∀ c ∈ cs, c.1 ≠ n := by
  intro cs
  induction cs with
  | nil => intro n _ c hc; exact absurd hc (List.not_mem_nil c)
  | cons c cs ih =>
    intro n h c' hc'
    have hrec : lastFile cs n = none := by
      unfold lastFile at h
      cases hl : lastFile cs n with
      | none => rfl
      | some b => rw [hl] at h; simp at h
    have hhd : (c.1 == n) = false := by
      unfold lastFile at h
      rw [hrec] at h
      cases hk : c.1 == n with
      | false => rfl
      | true => rw [hk] at h; simp at h
    rcases List.mem_cons.mp hc' with rfl | hc'
    · intro he
      rw [he] at hhd
      simp at hhd
    · exact ih hrec c' hc'

lemma hasFileKey_applyCopies_none :
    ∀ {cs : List (String × Bytes)} {n : String} (d : List (String × DirEntry)),
      lastFile cs n = none →
      hasFileKey (applyCopies cs d) n = hasFileKey d n := by
  intro cs
  induction cs with
  | nil => intro n d _; rfl
  | cons c cs ih =>
    intro n d h
    have hkeys := lastFile_none_key h
    have hrec : lastFile cs n = none := by
      unfold lastFile at h
      cases hl : lastFile cs n with
      | none => rfl
      | some b => rw [hl] at h; simp at h
    rw [applyCopies_cons, ih _ hrec,
      hasFileKey_setKey_ne _ (hkeys c (List.mem_cons_self c cs))]

/-! ### Run-level lemmas -/

/-- A successful run only adds cache entries, populates the cache of every
selected entry, and produces exactly the replayed copy list (with bytes
read from the final cache) on top of the starting directory. -/
lemma runMods_spec (net : String → Except LauncherError Bytes)
    (zipOpen : Bytes → Option (List (String × Bytes)))
    (repos : List (String × String)) :
    ∀ (mods : List ModEntry) (st st' : St),
      runMods net zipOpen repos mods st = .ok st' →
      (∀ k b, alookup st.cache k = some b → alookup st'.cache k = some b) ∧
      (∀ m ∈ mods, selected m = true →
        ∃ p b, m.source.get_path = .ok p ∧ alookup st'.cache p = some b) ∧
      st'.modsDir = applyCopies (copiesOf st'.cache mods) st.modsDir := by
  intro mods
  induction mods with
  | nil =>
    intro st st' h
    simp only [runMods] at h
    injection h with h
    subst h
    exact ⟨fun k b hk => hk, fun m hm => absurd hm (List.not_mem_nil m), rfl⟩
  | cons m rest ih =>
    intro st st' h
    simp only [runMods] at h
    cases hpm : processMod net zipOpen repos m st with
    | err e => simp only [hpm] at h; exact Outcome.noConfusion h
    | panic => simp only [hpm] at h; exact Outcome.noConfusion h
    | ok st1 =>
      simp only [hpm] at h
      obtain ⟨ihmono, ihsel, ihshape⟩ := ih st1 st' h
      rcases processMod_ok hpm with ⟨hsf, heq⟩ |
        ⟨hst, p, b, tail, hp, hcache1, hmono1, hdir1, hlog1⟩
      · subst heq
        refine ⟨ihmono, ?_, ?_⟩
        · intro m' hm' hsel'
          rcases List.mem_cons.mp hm' with rfl | hm'
          · rw [hsf] at hsel'
            exact absurd hsel' (by simp)
          · exact ihsel m' hm' hsel'
        · have hnone : copyOf st'.cache m = none := by
            unfold copyOf
            rw [if_pos (skip_of_not_selected hsf)]
          have hcs : copiesOf st'.cache (m :: rest) = copiesOf st'.cache rest := by
            simp [copiesOf, hnone]
          rw [hcs]
          exact ihshape
      · refine ⟨?_, ?_, ?_⟩
        · intro k b' hk
          exact ihmono k b' (hmono1 k b' hk)
        · intro m' hm' hsel'
          rcases List.mem_cons.mp hm' with rfl | hm'
          · exact ⟨p, b, hp, ihmono p b hcache1⟩
          · exact ihsel m' hm' hsel'
        · have hfinal : alookup st'.cache p = some b := ihmono p b hcache1
          have hsome : copyOf st'.cache m = some (m.name ++ ".jar", b) := by
            unfold copyOf
            rw [if_neg (by simp [not_skip_of_selected hst])]
            simp [hp, hfinal]
          have hcs : copiesOf st'.cache (m :: rest) =
              (m.name ++ ".jar", b) :: copiesOf st'.cache rest := by
            simp [copiesOf, hsome]
          rw [hcs, applyCopies_cons, ← hdir1]
          exact ihshape

/-- When every selected entry already has its cache entry, a run succeeds,
downloads nothing, leaves the cache untouched, and performs exactly the
replayed copies. -/
lemma runMods_all_hit (net : String → Except LauncherError Bytes)
    (zipOpen : Bytes → Option (List (String × Bytes)))
    (repos : List (String × String)) :
    ∀ (mods : List ModEntry) (st : St),
      (∀ m ∈ mods, selected m = true →
        ∃ p b, m.source.get_path = .ok p ∧ alookup st.cache p = some b) →
      ∃ st', runMods net zipOpen repos mods st = .ok st' ∧
        st'.cache = st.cache ∧
        countDownloads st'.log = countDownloads st.log ∧
        st'.modsDir = applyCopies (copiesOf st.cache mods) st.modsDir := by
  intro mods
  induction mods with
  | nil =>
    intro st _
    exact ⟨st, rfl, rfl, rfl, rfl⟩
  | cons m rest ih =>
    intro st hall
    cases hsel : selected m with
    | false =>
      obtain ⟨st', hrun, hc, hcount, hdir⟩ :=
        ih st (fun m' hm' hs => hall m' (List.mem_cons_of_mem _ hm') hs)
      refine ⟨st', ?_, hc, hcount, ?_⟩
      · simp only [runMods, processMod_skip net zipOpen repos hsel]
        exact hrun
      · have hnone : copyOf st.cache m = none := by
          unfold copyOf
          rw [if_pos (skip_of_not_selected hsel)]
        have hcs : copiesOf st.cache (m :: rest) = copiesOf st.cache rest := by
          simp [copiesOf, hnone]
        rw [hcs]
        exact hdir
    | true =>
      obtain ⟨p, b, hp, hb⟩ := hall m (List.mem_cons_self m rest) hsel
      have hstep := processMod_hit net zipOpen repos hsel hp hb
      obtain ⟨st', hrun, hc, hcount, hdir⟩ :=
        ih { st with
              log := st.log ++ [Event.label ("Downloading recommended mod " ++ m.name)],
              modsDir := setKey st.modsDir (m.name ++ ".jar") (DirEntry.file b) }
          (fun m' hm' hs => hall m' (List.mem_cons_of_mem _ hm') hs)
      refine ⟨st', ?_, hc, ?_, ?_⟩
      · simp only [runMods, hstep]
        exact hrun
      · rw [hcount]
        exact countDownloads_append_label st.log _
      · have hsome : copyOf st.cache m = some (m.name ++ ".jar", b) := by
          unfold copyOf
          rw [if_neg (by simp [not_skip_of_selected hsel])]
          simp [hp, hb]
        have hcs : copiesOf st.cache (m :: rest) =
            (m.name ++ ".jar", b) :: copiesOf st.cache rest := by
          simp [copiesOf, hsome]
        rw [hcs, applyCopies_cons, hdir]

/-! ### Claim C1 -/

/-- Claim C1: cache idempotence.  A selected entry whose cache path already
exists performs no download (only the label is logged and the cache bytes
are copied to `<name>.jar`); and after any successful run, a second run
with the unchanged manifest succeeds, performs zero network downloads, and
produces byte-identical working-directory contents. -/
theorem c1_cache_idempotence
    (net : String → Except LauncherError Bytes)
    (zipOpen : Bytes → Option (List (String × Bytes)))
    (manifest : LaunchManifest) (st0 st1 : St)
    (hrun1 : retrieve_and_copy_mods net zipOpen manifest st0 = .ok st1) :
    (∀ (m : ModEntry) (st : St) (p : String) (b : Bytes),
      selected m = true → m.source.get_path = .ok p → alookup st.cache p = some b →
      processMod net zipOpen manifest.repositories m st =
        .ok { st with
              log := st.log ++ [Event.label ("Downloading recommended mod " ++ m.name)],
              modsDir := setKey st.modsDir (m.name ++ ".jar") (DirEntry.file b) }) ∧
    ∃ st2, retrieve_and_copy_mods net zipOpen manifest st1 = .ok st2 ∧
      countDownloads st2.log = countDownloads st1.log ∧
      ∀ n, alookup st2.modsDir n = alookup st1.modsDir n := by
  constructor
  · intro m st p b hsel hp hb
    exact processMod_hit net zipOpen manifest.repositories hsel hp hb
  · unfold retrieve_and_copy_mods at hrun1 ⊢
    obtain ⟨hmono, hselcache, hshape⟩ :=
      runMods_spec net zipOpen manifest.repositories manifest.mods
        (clearWorkingDir st0) st1 hrun1
    rw [show (clearWorkingDir st0).modsDir = clearModsDir st0.modsDir from rfl] at hshape
    obtain ⟨st2, hrun2, hcache2, hcount2, hdir2⟩ :=
      runMods_all_hit net zipOpen manifest.repositories manifest.mods
        (clearWorkingDir st1) (fun m hm hs => hselcache m hm hs)
    rw [show (clearWorkingDir st1).cache = st1.cache from rfl,
      show (clearWorkingDir st1).modsDir = clearModsDir st1.modsDir from rfl] at hdir2
    refine ⟨st2, hrun2, hcount2, ?_⟩
    intro n
    rw [hdir2, alookup_applyCopies]
    cases hl : lastFile (copiesOf st1.cache manifest.mods) n with
    | some b =>
      show some (DirEntry.file b) = alookup st1.modsDir n
      rw [hshape, alookup_applyCopies, hl]
    | none =>
      show alookup (clearModsDir st1.modsDir) n = alookup st1.modsDir n
      have hnf : hasFileKey st1.modsDir n = false := by
        rw [hshape, hasFileKey_applyCopies_none _ hl]
        exact hasFileKey_eq_false_of_no_file (clearModsDir_no_file st0.modsDir) n
      rw [clearModsDir_alookup, hnf]
      simp

/-- Witness for C1: a one-mod manifest is retrieved once; the second run
re-produces the same working directory with no further downloads. -/
theorem c1_cache_idempotence_witness :
    ∃ st2,
      retrieve_and_copy_mods (fun _ => Except.ok [7]) (fun _ => none)
          ⟨[⟨"m", true, false, ModSource.skipAd "a" "u" false⟩], []⟩
          ⟨[("a", [7])], [("m.jar", DirEntry.file [7])],
            [Event.label "Downloading recommended mod m", Event.download "u"]⟩ = .ok st2 ∧
      countDownloads st2.log =
        countDownloads [Event.label "Downloading recommended mod m", Event.download "u"] ∧
      ∀ n, alookup st2.modsDir n = alookup [("m.jar", DirEntry.file [7])] n :=
  (c1_cache_idempotence (fun _ => Except.ok [7]) (fun _ => none)
      ⟨[⟨"m", true, false, ModSource.skipAd "a" "u" false⟩], []⟩
      ⟨[], [], []⟩
      ⟨[("a", [7])], [("m.jar", DirEntry.file [7])],
        [Event.label "Downloading recommended mod m", Event.download "u"]⟩
      (by rfl)).2

/-! ### Claim C2 -/

/-- Claim C2: selection correctness.  An entry with `required` and
`default` both false leaves the state entirely unchanged (no label, no
download, no cache access, no copy); a selected entry that processes
successfully emits the label event and lands in the working directory as
`<name>.jar`. -/
theorem c2_selection
    (net : String → Except LauncherError Bytes)
    (zipOpen : Bytes → Option (List (String × Bytes)))
    (repositories : List (String × String)) (m : ModEntry) (st st' : St) :
    (selected m = false → processMod net zipOpen repositories m st = .ok st) ∧
    (selected m = true → processMod net zipOpen repositories m st = .ok st' →
      (∃ tail, st'.log = st.log ++
        Event.label ("Downloading recommended mod " ++ m.name) :: tail) ∧
      ∃ b, alookup st'.modsDir (m.name ++ ".jar") = some (DirEntry.file b)) := by
  constructor
  · intro h
    exact processMod_skip net zipOpen repositories h
  · intro hsel h
    rcases processMod_ok h with ⟨hsf, _⟩ |
      ⟨_, p, b, tail, _, _, _, hdir, hlog⟩
    · rw [hsf] at hsel
      exact absurd hsel (by simp)
    · exact ⟨⟨tail, hlog⟩, ⟨b, by rw [hdir]; exact alookup_setKey_self _ _ _⟩⟩

/-- Witness for C2: an unselected entry is a no-op, and a selected entry
produces the label and the `<name>.jar` copy. -/
theorem c2_selection_witness :
    (processMod (fun _ => Except.ok [7]) (fun _ => none) []
        ⟨"u", false, false, ModSource.skipAd "b" "w" false⟩ ⟨[], [], []⟩ =
      .ok ⟨[], [], []⟩) ∧
    ((∃ tail, ([Event.label "Downloading recommended mod m", Event.download "u"] : List Event) =
        ([] : List Event) ++ Event.label ("Downloading recommended mod " ++ "m") :: tail) ∧
      ∃ b, alookup [("m.jar", DirEntry.file [7])] ("m" ++ ".jar") =
        some (DirEntry.file b)) :=
  ⟨(c2_selection (fun _ => Except.ok [7]) (fun _ => none) []
      ⟨"u", false, false, ModSource.skipAd "b" "w" false⟩ ⟨[], [], []⟩ ⟨[], [], []⟩).1 rfl,
   (c2_selection (fun _ => Except.ok [7]) (fun _ => none) []
      ⟨"m", true, false, ModSource.skipAd "a" "u" false⟩ ⟨[], [], []⟩
      ⟨[("a", [7])], [("m.jar", DirEntry.file [7])],
        [Event.label "Downloading recommended mod m", Event.download "u"]⟩).2 rfl rfl⟩

/-! ### Claim C4 -/

/-- Claim C4 (code behaviour at the failing input): when the downloaded
bytes of a `SkipAd` entry with `extract = true` are not a readable zip
archive, `retrieve_and_copy_mods` PANICS (`ZipArchive::new(..).unwrap()` at
prelauncher.rs line 102) instead of returning an `ArchiveError` value: the
outcome is `panic`, which is not an error value. -/
theorem c4_corrupt_zip_panics :
    retrieve_and_copy_mods (fun _ => Except.ok [1, 2, 3]) (fun _ => none)
        ⟨[⟨"m", true, false, ModSource.skipAd "a" "u" true⟩], []⟩ ⟨[], [], []⟩ =
      Outcome.panic ∧
    ∀ e : LauncherError, (Outcome.panic : Outcome St) ≠ Outcome.err e :=
  ⟨rfl, fun _ h => Outcome.noConfusion h⟩

/-! ### Claim C7 -/

/-- Counterexample to claim C7's quoted error message: an archive with no
`.jar` entry makes retrieval fail with
`InvalidVersionProfile("There is no JAR in the downloaded archive")` — the
source's message — which is not the spec's quoted message
`"no JAR in archive"`. -/
theorem c7_counterexample :
    processMod (fun _ => Except.ok [0]) (fun _ => some [("readme.txt", [1])]) []
        ⟨"m", true, false, ModSource.skipAd "a" "u" true⟩ ⟨[], [], []⟩ =
      Outcome.err (LauncherError.InvalidVersionProfile
        "There is no JAR in the downloaded archive") ∧
    LauncherError.InvalidVersionProfile "There is no JAR in the downloaded archive" ≠
      LauncherError.InvalidVersionProfile "no JAR in archive" :=
  ⟨rfl, by decide⟩

/-- Claim C7 (amended): for a `DirectDownload`/`SkipAd` entry on a cache
miss, with `extract = true` and a readable archive, the bytes written to
the cache path are exactly the full contents of the first archive entry
whose name ends in `.jar`; if no entry name ends in `.jar`, retrieval
fails with `InvalidVersionProfile("There is no JAR in the downloaded
archive")` (the source's message, not the spec's "no JAR in archive"); and
with `extract = false` the raw downloaded bytes are written unchanged. -/
theorem c7_extraction
    (net : String → Except LauncherError Bytes)
    (zipOpen : Bytes → Option (List (String × Bytes)))
    (repositories : List (String × String)) (m : ModEntry) (st : St)
    (aname url : String) (extract : Bool) (bytes : Bytes)
    (hsrc : m.source = ModSource.skipAd aname url extract)
    (hsel : selected m = true)
    (hmiss : alookup st.cache aname = none)
    (hnet : net url = .ok bytes) :
    (∀ archive jarName content, extract = true → zipOpen bytes = some archive →
      (archive.map (fun e => e.1)).find? (fun x => strEndsWith x ".jar") = some jarName →
      alookup archive jarName = some content →
      ∃ st', processMod net zipOpen repositories m st = .ok st' ∧
        alookup st'.cache aname = some content) ∧
    (∀ archive, extract = true → zipOpen bytes = some archive →
      (archive.map (fun e => e.1)).find? (fun x => strEndsWith x ".jar") = none →
      processMod net zipOpen repositories m st =
        .err (.InvalidVersionProfile "There is no JAR in the downloaded archive")) ∧
    (extract = false →
      ∃ st', processMod net zipOpen repositories m st = .ok st' ∧
        alookup st'.cache aname = some bytes) := by
  refine ⟨?_, ?_, ?_⟩
  · intro archive jarName content hx hz hf ha
    subst hx
    have hext : extractFinalFile zipOpen true bytes = .ok content := by
      unfold extractFinalFile
      rw [if_pos rfl]
      simp only [hz, hf, ha]
    refine ⟨{ cache := setKey st.cache aname content,
              modsDir := setKey st.modsDir (m.name ++ ".jar") (DirEntry.file content),
              log := (st.log ++ [Event.label ("Downloading recommended mod " ++ m.name)]) ++
                [Event.download url] }, ?_, ?_⟩
    · unfold processMod
      rw [if_neg (by simp [not_skip_of_selected hsel])]
      simp only [hsrc, ModSource.get_path, hmiss, hnet, hext, copyStep, writeCache,
        logDownload, logLabel, alookup_setKey_self]
    · exact alookup_setKey_self _ _ _
  · intro archive hx hz hf
    subst hx
    have hext : extractFinalFile zipOpen true bytes =
        .err (.InvalidVersionProfile "There is no JAR in the downloaded archive") := by
      unfold extractFinalFile
      rw [if_pos rfl]
      simp only [hz, hf]
    unfold processMod
    rw [if_neg (by simp [not_skip_of_selected hsel])]
    simp only [hsrc, ModSource.get_path, hmiss, hnet, hext]
  · intro hx
    subst hx
    have hext : extractFinalFile zipOpen false bytes = .ok bytes := rfl
    refine ⟨{ cache := setKey st.cache aname bytes,
              modsDir := setKey st.modsDir (m.name ++ ".jar") (DirEntry.file bytes),
              log := (st.log ++ [Event.label ("Downloading recommended mod " ++ m.name)]) ++
                [Event.download url] }, ?_, ?_⟩
    · unfold processMod
      rw [if_neg (by simp [not_skip_of_selected hsel])]
      simp only [hsrc, ModSource.get_path, hmiss, hnet, hext, copyStep, writeCache,
        logDownload, logLabel, alookup_setKey_self]
    · exact alookup_setKey_self _ _ _

/-- Witness for C7 (amended) on the spec's fabricated archive
`["readme.txt", "mod-1.0.jar"]`. -/
theorem c7_extraction_witness :
    ∃ st', processMod (fun _ => Except.ok [0])
        (fun _ => some [("readme.txt", [1]), ("mod-1.0.jar", [9, 9])]) []
        ⟨"m", true, false, ModSource.skipAd "a" "u" true⟩ ⟨[], [], []⟩ = .ok st' ∧
      alookup st'.cache "a" = some [9, 9] :=
  (c7_extraction (fun _ => Except.ok [0])
      (fun _ => some [("readme.txt", [1]), ("mod-1.0.jar", [9, 9])]) []
      ⟨"m", true, false, ModSource.skipAd "a" "u" true⟩ ⟨[], [], []⟩
      "a" "u" true [0] rfl rfl rfl rfl).1
    [("readme.txt", [1]), ("mod-1.0.jar", [9, 9])] "mod-1.0.jar" [9, 9]
    rfl rfl (by rfl) rfl

/-! ### Claim C8 -/

/-- Counterexample to claim C8's quoted error message: with an empty
catalog, the failure message is
`"unable to find inherited version manifest 1.8.9"` (the source says
"manifest"), not the spec's `"unable to find inherited version profile
1.8.9"`. -/
theorem c8_counterexample :
    resolveInheritance (fun _ => Except.error (LauncherError.TransportError "offline"))
        ⟨[]⟩ ⟨"custom", some "1.8.9", none, []⟩ =
      Except.error (LauncherError.InvalidVersionProfile
        "unable to find inherited version manifest 1.8.9") ∧
    Except.error (LauncherError.InvalidVersionProfile
        "unable to find inherited version manifest 1.8.9") ≠
      (Except.error (LauncherError.InvalidVersionProfile
        "unable to find inherited version profile 1.8.9") :
        Except LauncherError VersionProfile) := by
  constructor
  · rfl
  · intro h
    injection h with h
    injection h with h
    exact absurd h (by decide)

/-- Claim C8 (amended): a root profile declaring an `inherits_from` parent
id with no matching catalog entry fails with
`InvalidVersionProfile("unable to find inherited version manifest <id>")`
(the source says "manifest", not the spec's "profile"); when a matching
entry exists, the parent is fetched from that entry's URL and merged into
the child. -/
theorem c8_inheritance_resolution
    (fetchProfile : String → Except LauncherError VersionProfile)
    (mvm : VersionManifest) (version : VersionProfile) (inh : String)
    (hinh : version.inherits_from = some inh) :
    (mvm.versions.find? (fun x => x.id == inh) = none →
      resolveInheritance fetchProfile mvm version =
        .error (.InvalidVersionProfile
          ("unable to find inherited version manifest " ++ inh))) ∧
    (∀ entry parent, mvm.versions.find? (fun x => x.id == inh) = some entry →
      fetchProfile entry.url = .ok parent →
      resolveInheritance fetchProfile mvm version = .ok (version.merge parent)) := by
  constructor
  · intro h
    unfold resolveInheritance
    simp only [hinh, h]
  · intro entry parent h1 h2
    unfold resolveInheritance
    simp only [hinh, h1, h2]

/-- Witness for C8 (amended): a one-entry catalog resolves and merges; an
empty catalog fails with the "manifest" message. -/
theorem c8_inheritance_resolution_witness :
    resolveInheritance
        (fun _ => Except.ok (⟨"1.8.9", none, some "Main", ["L2"]⟩ : VersionProfile))
        ⟨[⟨"1.8.9", "url189"⟩]⟩ ⟨"custom", some "1.8.9", none, ["L1"]⟩ =
      .ok ((⟨"custom", some "1.8.9", none, ["L1"]⟩ : VersionProfile).merge
        ⟨"1.8.9", none, some "Main", ["L2"]⟩) ∧
    resolveInheritance
        (fun _ => Except.ok (⟨"1.8.9", none, some "Main", ["L2"]⟩ : VersionProfile))
        ⟨[]⟩ ⟨"custom", some "1.8.9", none, ["L1"]⟩ =
      .error (.InvalidVersionProfile
        ("unable to find inherited version manifest " ++ "1.8.9")) :=
  ⟨(c8_inheritance_resolution
        (fun _ => Except.ok (⟨"1.8.9", none, some "Main", ["L2"]⟩ : VersionProfile))
        ⟨[⟨"1.8.9", "url189"⟩]⟩ ⟨"custom", some "1.8.9", none, ["L1"]⟩ "1.8.9" rfl).2
      ⟨"1.8.9", "url189"⟩ ⟨"1.8.9", none, some "Main", ["L2"]⟩ rfl rfl,
   (c8_inheritance_resolution
        (fun _ => Except.ok (⟨"1.8.9", none, some "Main", ["L2"]⟩ : VersionProfile))
        ⟨[]⟩ ⟨"custom", some "1.8.9", none, ["L1"]⟩ "1.8.9" rfl).1 rfl⟩
